import Mathlib

/-!
Shallow embedding of the verlo-websocket server (server.js and its two
sibling iterations) and proofs about its session pipeline.

Text is modelled as `String` / `List Char`; the JavaScript `toLowerCase` is
modelled by `Char.toLower` (the ASCII transform, matching the basic-latin
fragment); the Unicode classes `\p{L}\p{N}` are modelled by
`Char.isAlpha || Char.isDigit` on that fragment.  `text.split(" ")` is
modelled by `splitSp`, which splits at every single space character and,
like the JavaScript original, returns at least one (possibly empty)
segment and keeps empty segments between consecutive spaces.
-/

namespace VerloWS

/-- Model of the character class `[\p{L}\p{N}]` from the cache-key regex,
on the basic-latin fragment. -/
def jsIsAlnum (c : Char) : Bool := c.isAlpha || c.isDigit

/-- Cache-key normalization from `getCachedTranslation` / `setCachedTranslation`:
`text.toLowerCase().replace(/[^\p{L}\p{N}]+/gu, "").slice(0, 120)`. -/
def normalize (text : String) : String :=
  String.mk (((text.toList.map Char.toLower).filter jsIsAlnum).take 120)

/-- Prepend a character to the first segment of a segment list. -/
def consHead (c : Char) : List (List Char) → List (List Char)
  | [] => [[c]]
  | w :: ws => (c :: w) :: ws

/-- Splitter: split a character list at every character satisfying `p`,
keeping empty segments, always returning at least one segment (JavaScript
`String.prototype.split` with a single-character separator). -/
def splitP (p : Char → Bool) : List Char → List (List Char)
  | [] => [[]]
  | c :: cs => if p c then [] :: splitP p cs else consHead c (splitP p cs)

/-- Model of `text.split(" ")` on a character list. -/
def splitSp : List Char → List (List Char) := splitP (fun c => c == ' ')

/-- Word count `text.split(" ").length` from `setCachedTranslation`. -/
def wordCount (text : String) : Nat := (splitSp text.toList).length

/-- TTL selection from `setCachedTranslation`:
`wordCount <= 5 ? 86400 : 3600`. -/
def ttlFor (text : String) : Nat := if wordCount text ≤ 5 then 86400 else 3600

/-- Spec-side definition (for comparison with `ttlFor`): the spec says the
word count splits the original text on whitespace; a word is a nonempty
whitespace-separated segment. -/
def specWordCount (text : String) : Nat :=
  ((splitP Char.isWhitespace text.toList).filter (fun w => !w.isEmpty)).length

/-- Spec-side TTL rule (for comparison with `ttlFor`): word count at most 5
gives 86400 seconds, otherwise 3600 seconds. -/
def specTtlFor (text : String) : Nat :=
  if specWordCount text ≤ 5 then 86400 else 3600

/-- Cache key from the cache helpers:
"t:" followed by the languages and the normalized text. -/
def cacheKey (fromL toL : String) (text : String) : String :=
  "t:" ++ fromL ++ ":" ++ toL ++ ":" ++ normalize text

/-! ### Helper lemmas about characters and splitting -/

theorem toNat_ofNat_valid {n : Nat} (h : n.isValidChar) :
    (Char.ofNat n).toNat = n := by
  rw [Char.ofNat, dif_pos h]
  rfl

theorem toLower_toLower (c : Char) : c.toLower.toLower = c.toLower := by
  by_cases h : c.toNat ≥ 65 ∧ c.toNat ≤ 90
  · have h1 : c.toLower = Char.ofNat (c.toNat + 32) := by
      show (if c.toNat ≥ 65 ∧ c.toNat ≤ 90 then Char.ofNat (c.toNat + 32) else c)
          = Char.ofNat (c.toNat + 32)
      rw [if_pos h]
    have hv : (c.toNat + 32).isValidChar := Or.inl (by omega)
    rw [h1]
    show (if (Char.ofNat (c.toNat + 32)).toNat ≥ 65 ∧ (Char.ofNat (c.toNat + 32)).toNat ≤ 90
        then Char.ofNat ((Char.ofNat (c.toNat + 32)).toNat + 32) else Char.ofNat (c.toNat + 32))
        = Char.ofNat (c.toNat + 32)
    rw [toNat_ofNat_valid hv, if_neg (by omega)]
  · have h1 : c.toLower = c := by
      show (if c.toNat ≥ 65 ∧ c.toNat ≤ 90 then Char.ofNat (c.toNat + 32) else c) = c
      rw [if_neg h]
    rw [h1, h1]

theorem consHead_cons (c : Char) (w : List Char) (ws : List (List Char)) :
    consHead c (w :: ws) = (c :: w) :: ws := rfl

theorem consHead_ne_nil (c : Char) (l : List (List Char)) : consHead c l ≠ [] := by
  cases l <;> simp [consHead]

theorem consHead_append (c : Char) {l : List (List Char)} (X : List (List Char))
    (h : l ≠ []) : consHead c (l ++ X) = consHead c l ++ X := by
  cases l with
  | nil => exact absurd rfl h
  | cons w ws => rfl

theorem length_consHead (c : Char) {l : List (List Char)} (h : l ≠ []) :
    (consHead c l).length = l.length := by
  cases l with
  | nil => exact absurd rfl h
  | cons w ws => rfl

theorem splitP_ne_nil (p : Char → Bool) (l : List Char) : splitP p l ≠ [] := by
  cases l with
  | nil => simp [splitP]
  | cons c cs =>
    rw [splitP]
    by_cases hc : p c
    · simp [hc]
    · simp only [hc, Bool.false_eq_true, if_false]
      exact consHead_ne_nil c _

theorem splitSp_ne_nil (l : List Char) : splitSp l ≠ [] := splitP_ne_nil _ l

theorem length_splitP (p : Char → Bool) (l : List Char) :
    (splitP p l).length = l.countP p + 1 := by
  induction l with
  | nil => rfl
  | cons c cs ih =>
    rw [splitP]
    by_cases hc : p c
    · rw [if_pos hc, List.countP_cons]
      simp only [hc, if_true, List.length_cons, ih]
    · have hcf : p c = false := by simpa using hc
      rw [if_neg hc, length_consHead c (splitP_ne_nil p cs), ih, List.countP_cons, hcf]
      simp

theorem length_splitSp (l : List Char) : (splitSp l).length = l.count ' ' + 1 := by
  show (splitP (fun c => c == ' ') l).length = l.count ' ' + 1
  rw [length_splitP]
  rfl

/-! ### Claim C6: TTL policy -/

/-- Claim C6, counterexample.  The claim says the TTL word count comes from
splitting on whitespace; the code splits on the space character only.  The
text "a\nb c d e f" has six whitespace-separated words (spec TTL 3600) but
only five space-separated segments, so the code picks TTL 86400. -/
theorem c6_ttl_counterexample :
    ttlFor "a\nb c d e f" = 86400 ∧ specTtlFor "a\nb c d e f" = 3600 ∧
      ttlFor "a\nb c d e f" ≠ specTtlFor "a\nb c d e f" := by
  refine ⟨by decide, by decide, by decide⟩

/-- Claim C6, amended: the cache-write TTL is chosen by splitting the
original untruncated text at every single space character (consecutive
spaces produce empty segments which are counted; the segment count is the
number of spaces plus one).  At most 5 segments gives TTL 86400 seconds,
otherwise 3600; the boundary is inclusive at 5, as witnessed by the
single-space-separated 5-word and 6-word texts. -/
theorem c6_ttl_space_segments (text : String) :
    ttlFor text = (if text.toList.count ' ' + 1 ≤ 5 then 86400 else 3600) ∧
      ttlFor "a b c d e" = 86400 ∧ ttlFor "a b c d e f" = 3600 := by
  refine ⟨?_, by decide, by decide⟩
  rw [ttlFor, wordCount, length_splitSp]

/-! ### Claim C7: normalization is idempotent -/

theorem mem_normalize_toLower {text : String} {c : Char}
    (hc : c ∈ (normalize text).toList) : c.toLower = c ∧ jsIsAlnum c := by
  have hc' : c ∈ ((text.toList.map Char.toLower).filter jsIsAlnum).take 120 := hc
  have hmem := List.mem_of_mem_take hc'
  have hp : jsIsAlnum c := List.of_mem_filter hmem
  have hmap : c ∈ text.toList.map Char.toLower := List.mem_of_mem_filter hmem
  obtain ⟨d, _, hd⟩ := List.mem_map.mp hmap
  exact ⟨hd ▸ toLower_toLower d, hp⟩

theorem length_normalize_le (text : String) : (normalize text).toList.length ≤ 120 := by
  have : (normalize text).toList = ((text.toList.map Char.toLower).filter jsIsAlnum).take 120 := rfl
  rw [this]
  exact List.length_take_le 120 _

/-- Claim C7: the cache-key normalization (lower-case, strip every
character that is not a letter or digit, truncate to 120 characters) is
idempotent: normalizing an already-normalized text leaves it unchanged. -/
theorem c7_normalize_idempotent (text : String) :
    normalize (normalize text) = normalize text := by
  have hfix : ∀ c ∈ (normalize text).toList, c.toLower = c :=
    fun c hc => (mem_normalize_toLower hc).1
  have hpass : ∀ c ∈ (normalize text).toList, jsIsAlnum c :=
    fun c hc => (mem_normalize_toLower hc).2
  have hmap : (normalize text).toList.map Char.toLower = (normalize text).toList := by
    calc (normalize text).toList.map Char.toLower
        = (normalize text).toList.map id := List.map_congr_left hfix
      _ = (normalize text).toList := List.map_id _
  have hfilter : ((normalize text).toList.filter jsIsAlnum) = (normalize text).toList :=
    List.filter_eq_self.mpr hpass
  have htake : ((normalize text).toList.take 120) = (normalize text).toList :=
    List.take_of_length_le (length_normalize_le text)
  show String.mk ((((normalize text).toList.map Char.toLower).filter jsIsAlnum).take 120)
      = normalize text
  rw [hmap, hfilter, htake]
  rfl

/-! ### Outbound frames and the server.js stop handler -/

/-- Outbound WebSocket frames sent by the handlers.  Fields that the code
can send as JavaScript `undefined` (closure variables never assigned) are
`Option`-valued. -/
inductive Frame where
  | connectedF (sessionId : Option String)
  | partialF (text : Option String)
  | finalF (original translated : String) (cached : Bool) (fromLang toLang : Option String)
  | finalSimpleF (original translated : String) (cached : Bool)
  | audioF (url : String)
  | audioChunkF (url : String) (chunkIndex totalChunks : Nat)
  | audioCompleteF (totalChunks : Nat)
  | endF (sessionId : Option String)
  | errorF (msg : String)
  | pongF
  deriving Repr, DecidableEq

/-- Result of one `stop` turn: the frames sent over the socket, whether the
temporary decoded-audio file still exists when the handler returns, and
whether the chat-completion (Translation Adapter) call was made. -/
structure StopOutcome where
  frames : List Frame
  tmpExists : Bool
  translateInvoked : Bool
  deriving Repr, DecidableEq

/-- JavaScript template-literal rendering of a possibly-undefined string. -/
def optStr : Option String → String
  | none => "undefined"
  | some s => s

/-- Function `getCachedTranslation` from server.js: derive the key, query Redis; a
thrown Redis error is caught and the function returns null (a miss). -/
def getCachedTranslation (redisGet : String → Except Unit (Option String))
    (fromL toL text : String) : Option String :=
  match redisGet (cacheKey fromL toL text) with
  | Except.error _ => none
  | Except.ok v => v

/-- Function `setCachedTranslation` from server.js: derive the key and TTL, call
`redis.setex`; a thrown Redis error is caught and logged, so the function
always returns normally (it never propagates an exception). -/
def setCachedTranslation (redisSet : String → Nat → String → Except Unit Unit)
    (fromL toL text value : String) : Except String Unit :=
  match redisSet (cacheKey fromL toL text) (ttlFor text) value with
  | Except.error _ => Except.ok ()
  | Except.ok _ => Except.ok ()

/-- Data-URL wrapping used for synthesized audio. -/
def dataUrl (b64 : String) : String := "data:audio/mp3;base64," ++ b64

/-- The stop case of the server.js message handler.

The audio assembly (joining the chunks), data-URL strip and base64
decode feed only the transcription request, so the Transcription Adapter is
modelled as a function `transcribe` of the joined payload whose result is
the awaited `fetch` + `.json()`: `Except.error msg` is a thrown request
error (the temporary file write has already happened and no code path
removes it before the outer catch), and `Except.ok txt` is the parsed
response whose `text` field is `txt` — `none` when the response has no
`text` field (server.js never checks `response.ok`).

server.js has no emptiness check on the audio buffer and no guard on the
transcript, so with `txt = none` it sends the `partial` frame with an
undefined text and then crashes inside `getCachedTranslation` at
`text.toLowerCase()`; the outer catch turns that `TypeError` into an
`error` frame. -/
def serverStopRun (sessionId fromLang toLang : Option String) (audioChunks : List String)
    (transcribe : String → Except String (Option String))
    (redisGet : String → Except Unit (Option String))
    (redisSet : String → Nat → String → Except Unit Unit)
    (translate : String → String) (tts : String → String) : StopOutcome :=
  match transcribe (String.join audioChunks) with
  | Except.error msg =>
      { frames := [Frame.errorF msg], tmpExists := true, translateInvoked := false }
  | Except.ok none =>
      { frames := [Frame.partialF none,
          Frame.errorF "TypeError: Cannot read properties of undefined"],
        tmpExists := false, translateInvoked := false }
  | Except.ok (some originalText) =>
      match getCachedTranslation redisGet (optStr fromLang) (optStr toLang) originalText with
      | some cachedT =>
          { frames := [Frame.partialF (some originalText),
              Frame.finalF originalText cachedT true fromLang toLang,
              Frame.audioF (dataUrl (tts cachedT)),
              Frame.endF sessionId],
            tmpExists := false, translateInvoked := false }
      | none =>
          let translatedText := translate originalText
          match setCachedTranslation redisSet (optStr fromLang) (optStr toLang)
              originalText translatedText with
          | Except.error m =>
              { frames := [Frame.partialF (some originalText),
                  Frame.finalF originalText translatedText false fromLang toLang,
                  Frame.errorF m],
                tmpExists := false, translateInvoked := true }
          | Except.ok _ =>
              { frames := [Frame.partialF (some originalText),
                  Frame.finalF originalText translatedText false fromLang toLang,
                  Frame.audioF (dataUrl (tts translatedText)),
                  Frame.endF sessionId],
                tmpExists := false, translateInvoked := true }

/-- Redis stub whose get always throws. -/
def failingRedisGet : String → Except Unit (Option String) := fun _ => Except.error ()

/-- Redis stub whose set always throws. -/
def failingRedisSet : String → Nat → String → Except Unit Unit := fun _ _ _ => Except.error ()

/-- Redis stub holding no entries. -/
def emptyRedisGet : String → Except Unit (Option String) := fun _ => Except.ok none

/-- Redis stub whose set succeeds. -/
def okRedisSet : String → Nat → String → Except Unit Unit := fun _ _ _ => Except.ok ()

/-! ### Claim C1: cache hit uses the cached text and never translates -/

/-- Claim C1: on a stop whose transcript has a pre-populated cache entry
for (fromLang, toLang, transcript), the turn emits a `final` frame with
`cached: true` carrying the cached translated text, and the
chat-completion Translation Adapter call is never made. -/
theorem c1_cache_hit_skips_translation
    (sid fl tl : Option String) (chunks : List String)
    (transcribe : String → Except String (Option String))
    (redisGet : String → Except Unit (Option String))
    (redisSet : String → Nat → String → Except Unit Unit)
    (translate tts : String → String) (t e : String)
    (htr : transcribe (String.join chunks) = Except.ok (some t))
    (hcache : redisGet (cacheKey (optStr fl) (optStr tl) t) = Except.ok (some e)) :
    serverStopRun sid fl tl chunks transcribe redisGet redisSet translate tts =
      { frames := [Frame.partialF (some t), Frame.finalF t e true fl tl,
          Frame.audioF (dataUrl (tts e)), Frame.endF sid],
        tmpExists := false, translateInvoked := false } := by
  simp only [serverStopRun, getCachedTranslation, htr, hcache]

/-- Witness for C1: a concrete cache-hit turn for (sv, en, "hej"). -/
theorem c1_cache_hit_skips_translation_witness :
    serverStopRun (some "s1") (some "sv") (some "en") ["aGVq"]
      (fun _ => Except.ok (some "hej"))
      (fun k => if k = "t:sv:en:hej" then Except.ok (some "hello") else Except.ok none)
      okRedisSet (fun _ => "SHOULD-NOT-RUN") (fun _ => "B64") =
      { frames := [Frame.partialF (some "hej"), Frame.finalF "hej" "hello" true (some "sv") (some "en"),
          Frame.audioF (dataUrl "B64"), Frame.endF (some "s1")],
        tmpExists := false, translateInvoked := false } :=
  c1_cache_hit_skips_translation (some "s1") (some "sv") (some "en") ["aGVq"]
    (fun _ => Except.ok (some "hej"))
    (fun k => if k = "t:sv:en:hej" then Except.ok (some "hello") else Except.ok none)
    okRedisSet (fun _ => "SHOULD-NOT-RUN") (fun _ => "B64") "hej" "hello"
    rfl rfl

/-! ### Claim C2: stop with an empty audio buffer -/

/-- Claim C2 is a code bug in server.js: a stop with zero prior chunks is
not checked for emptiness; the empty payload is sent to the transcription
endpoint, and with the provider error response (no `text` field) the
handler emits a `partial` frame (with undefined text) and then fails
inside the cache lookup with a TypeError, surfaced as a generic error
frame — not the specified terminal error with no further frames. -/
theorem c2_empty_audio_emits_partial_before_error :
    serverStopRun (some "s1") (some "sv") (some "en") []
      (fun _ => Except.ok none) emptyRedisGet okRedisSet
      (fun _ => "") (fun _ => "") =
      { frames := [Frame.partialF none,
          Frame.errorF "TypeError: Cannot read properties of undefined"],
        tmpExists := false, translateInvoked := false } := by
  decide

/-! ### Claim C3: empty transcript -/

/-- Claim C3 is a code bug in server.js: there is no transcript guard, so
when the Transcription Adapter returns an empty transcript the handler does
not emit the specified "No text transcribed from audio" error; it runs the
whole pipeline on the empty string, invokes the Translation Adapter, and
emits partial, final, audio and end frames.  (part_000 and part_001 do
have the guard.) -/
theorem c3_empty_transcript_runs_full_pipeline :
    serverStopRun (some "s1") (some "sv") (some "en") ["Zm9v"]
      (fun _ => Except.ok (some "")) emptyRedisGet okRedisSet
      (fun _ => "X") (fun _ => "TTSB64") =
      { frames := [Frame.partialF (some ""),
          Frame.finalF "" "X" false (some "sv") (some "en"),
          Frame.audioF (dataUrl "TTSB64"), Frame.endF (some "s1")],
        tmpExists := false, translateInvoked := true } := by
  decide

/-! ### Claim C5: cache failure degrades to a miss -/

/-- Claim C5: a throwing cache read is treated as a miss (the lookup
returns null) and a throwing cache write is a no-op; a turn run against a
completely failing Redis produces exactly the frames of a genuine-miss
turn, with no error frame caused by the cache. -/
theorem c5_cache_failure_degrades_to_miss
    (fl tl x v : String) (sid flo tlo : Option String) (chunks : List String)
    (transcribe : String → Except String (Option String))
    (translate tts : String → String) (t : String)
    (htr : transcribe (String.join chunks) = Except.ok (some t)) :
    getCachedTranslation failingRedisGet fl tl x = none ∧
    setCachedTranslation failingRedisSet fl tl x v = Except.ok () ∧
    serverStopRun sid flo tlo chunks transcribe failingRedisGet failingRedisSet translate tts
      = serverStopRun sid flo tlo chunks transcribe emptyRedisGet okRedisSet translate tts ∧
    (serverStopRun sid flo tlo chunks transcribe failingRedisGet failingRedisSet
        translate tts).frames
      = [Frame.partialF (some t), Frame.finalF t (translate t) false flo tlo,
         Frame.audioF (dataUrl (tts (translate t))), Frame.endF sid] := by
  refine ⟨rfl, rfl, ?_, ?_⟩
  · unfold serverStopRun
    rw [htr]
    rfl
  · unfold serverStopRun
    rw [htr]
    rfl

/-- Witness for C5 at a concrete turn. -/
theorem c5_cache_failure_degrades_to_miss_witness :
    getCachedTranslation failingRedisGet "sv" "en" "hej" = none ∧
    setCachedTranslation failingRedisSet "sv" "en" "hej" "hello" = Except.ok () ∧
    serverStopRun (some "s1") (some "sv") (some "en") ["aGVq"]
        (fun _ => Except.ok (some "hej")) failingRedisGet failingRedisSet
        (fun _ => "hello") (fun _ => "B64")
      = serverStopRun (some "s1") (some "sv") (some "en") ["aGVq"]
        (fun _ => Except.ok (some "hej")) emptyRedisGet okRedisSet
        (fun _ => "hello") (fun _ => "B64") ∧
    (serverStopRun (some "s1") (some "sv") (some "en") ["aGVq"]
        (fun _ => Except.ok (some "hej")) failingRedisGet failingRedisSet
        (fun _ => "hello") (fun _ => "B64")).frames
      = [Frame.partialF (some "hej"),
         Frame.finalF "hej" "hello" false (some "sv") (some "en"),
         Frame.audioF (dataUrl "B64"), Frame.endF (some "s1")] :=
  c5_cache_failure_degrades_to_miss "sv" "en" "hej" "hello"
    (some "s1") (some "sv") (some "en") ["aGVq"]
    (fun _ => Except.ok (some "hej")) (fun _ => "hello") (fun _ => "B64") "hej"
    rfl

/-! ### Claim C9: temporary audio file cleanup -/

/-- Claim C9 is a code bug in server.js: when the transcription request
throws, the `fs.unlinkSync(tmpPath)` after it is never reached and no
catch block removes the file, so the temporary decoded-audio file is
leaked (the outcome still reports the file as existing); the spec requires
removal on every path. -/
theorem c9_tmp_file_leaks_when_transcription_throws :
    serverStopRun (some "s1") (some "sv") (some "en") ["abc"]
      (fun _ => Except.error "fetch failed") emptyRedisGet okRedisSet
      (fun _ => "") (fun _ => "") =
      { frames := [Frame.errorF "fetch failed"], tmpExists := true,
        translateInvoked := false } := by
  decide

/-! ### part_000: stop handler with missing-language fallback -/

/-- JavaScript truthiness test for a possibly-undefined string: undefined
and the empty string are falsy. -/
def jsFalsy : Option String → Bool
  | none => true
  | some s => s.isEmpty

/-- JavaScript `x || d` for a possibly-undefined string. -/
def jsOr (o : Option String) (d : String) : String :=
  match o with
  | none => d
  | some s => if s.isEmpty then d else s

/-- Function `getCachedTranslation` from part_000 / part_001: like the server.js
version but guarded by `if (!text) return null`. -/
def getCachedTranslationGuarded (redisGet : String → Except Unit (Option String))
    (fromL toL text : String) : Option String :=
  if text = "" then none else getCachedTranslation redisGet fromL toL text

/-- Outcome of a part_000 stop turn: besides the frames and flags it
records the closure language variables as left behind for the session. -/
structure Part000Outcome where
  frames : List Frame
  tmpExists : Bool
  translateInvoked : Bool
  fromLangAfter : Option String
  toLangAfter : Option String
  deriving Repr, DecidableEq

/-- The pipeline part of the part_000 stop case (everything inside the
inner try/catch, after the language fallback).  The inner catch emits
"Transcription failed: ..." and removes the temporary file if it still
exists, so `tmpExists` is false on every path. -/
def part000Pipeline (sessionId fl tl : Option String) (audioChunks : List String)
    (transcribe : String → Except String (Option String))
    (redisGet : String → Except Unit (Option String))
    (redisSet : String → Nat → String → Except Unit Unit)
    (translate : String → String) (tts : String → String) : StopOutcome :=
  match transcribe (String.join audioChunks) with
  | Except.error msg =>
      { frames := [Frame.errorF ("Transcription failed: " ++ msg)],
        tmpExists := false, translateInvoked := false }
  | Except.ok txt =>
      if jsFalsy txt then
        { frames := [Frame.errorF "No text transcribed from audio"],
          tmpExists := false, translateInvoked := false }
      else
        let originalText := txt.getD ""
        match getCachedTranslationGuarded redisGet (optStr fl) (optStr tl) originalText with
        | some cachedT =>
            { frames := [Frame.partialF (some originalText),
                Frame.finalSimpleF originalText cachedT true,
                Frame.audioF (dataUrl (tts cachedT)), Frame.endF sessionId],
              tmpExists := false, translateInvoked := false }
        | none =>
            let translated := translate originalText
            match setCachedTranslation redisSet (optStr fl) (optStr tl)
                originalText translated with
            | Except.error m =>
                { frames := [Frame.partialF (some originalText),
                    Frame.finalSimpleF originalText translated false,
                    Frame.errorF ("Transcription failed: " ++ m)],
                  tmpExists := false, translateInvoked := true }
            | Except.ok _ =>
                { frames := [Frame.partialF (some originalText),
                    Frame.finalSimpleF originalText translated false,
                    Frame.audioF (dataUrl (tts translated)), Frame.endF sessionId],
                  tmpExists := false, translateInvoked := true }

/-- The stop case of part_000: first the missing-language
fallback (fromLang defaults to sv and toLang to en, run only
when either is falsy, assigned back to the closure variables), then the
pipeline. -/
def part000StopRun (sessionId fromLang toLang : Option String) (audioChunks : List String)
    (transcribe : String → Except String (Option String))
    (redisGet : String → Except Unit (Option String))
    (redisSet : String → Nat → String → Except Unit Unit)
    (translate : String → String) (tts : String → String) : Part000Outcome :=
  let needFb := jsFalsy fromLang || jsFalsy toLang
  let fl := if needFb then some (jsOr fromLang "sv") else fromLang
  let tl := if needFb then some (jsOr toLang "en") else toLang
  let r := part000Pipeline sessionId fl tl audioChunks transcribe redisGet redisSet translate tts
  { frames := r.frames, tmpExists := r.tmpExists, translateInvoked := r.translateInvoked,
    fromLangAfter := fl, toLangAfter := tl }

/-! ### Claim C10: missing-language fallback -/

/-- Claim C10: a stop processed while fromLang or toLang is unset does not
fail for that reason: the unset fromLang becomes "sv" and the unset toLang
becomes "en", the defaults are stored back into the session, and the turn
runs exactly as if those languages had been supplied by a start. -/
theorem c10_missing_language_defaults
    (sid : Option String) (chunks : List String)
    (transcribe : String → Except String (Option String))
    (redisGet : String → Except Unit (Option String))
    (redisSet : String → Nat → String → Except Unit Unit)
    (translate tts : String → String) :
    (part000StopRun sid none none chunks transcribe redisGet redisSet translate tts
       = part000StopRun sid (some "sv") (some "en") chunks transcribe redisGet redisSet translate tts
     ∧ (part000StopRun sid none none chunks transcribe redisGet redisSet translate tts).fromLangAfter
       = some "sv"
     ∧ (part000StopRun sid none none chunks transcribe redisGet redisSet translate tts).toLangAfter
       = some "en") ∧
    (∀ s : String, s.isEmpty = false →
       part000StopRun sid none (some s) chunks transcribe redisGet redisSet translate tts
         = part000StopRun sid (some "sv") (some s) chunks transcribe redisGet redisSet translate tts
       ∧ (part000StopRun sid none (some s) chunks transcribe redisGet redisSet
           translate tts).fromLangAfter = some "sv"
       ∧ (part000StopRun sid none (some s) chunks transcribe redisGet redisSet
           translate tts).toLangAfter = some s) ∧
    (∀ s : String, s.isEmpty = false →
       part000StopRun sid (some s) none chunks transcribe redisGet redisSet translate tts
         = part000StopRun sid (some s) (some "en") chunks transcribe redisGet redisSet translate tts
       ∧ (part000StopRun sid (some s) none chunks transcribe redisGet redisSet
           translate tts).toLangAfter = some "en"
       ∧ (part000StopRun sid (some s) none chunks transcribe redisGet redisSet
           translate tts).fromLangAfter = some s) := by
  refine ⟨⟨rfl, rfl, rfl⟩, ?_, ?_⟩
  · intro s hs
    refine ⟨?_, ?_, ?_⟩ <;> simp [part000StopRun, jsFalsy, jsOr, hs]
  · intro s hs
    refine ⟨?_, ?_, ?_⟩ <;> simp [part000StopRun, jsFalsy, jsOr, hs]

/-- Witness for C10 at concrete turns. -/
theorem c10_missing_language_defaults_witness :
    (part000StopRun (some "s1") none none ["aGVq"]
        (fun _ => Except.ok (some "hej")) emptyRedisGet okRedisSet
        (fun _ => "hello") (fun _ => "B64")
      = part000StopRun (some "s1") (some "sv") (some "en") ["aGVq"]
        (fun _ => Except.ok (some "hej")) emptyRedisGet okRedisSet
        (fun _ => "hello") (fun _ => "B64")) ∧
    (part000StopRun (some "s1") none (some "de") ["aGVq"]
        (fun _ => Except.ok (some "hej")) emptyRedisGet okRedisSet
        (fun _ => "hallo") (fun _ => "B64")).fromLangAfter = some "sv" :=
  ⟨(c10_missing_language_defaults (some "s1") ["aGVq"]
      (fun _ => Except.ok (some "hej")) emptyRedisGet okRedisSet
      (fun _ => "hello") (fun _ => "B64")).1.1,
   ((c10_missing_language_defaults (some "s1") ["aGVq"]
      (fun _ => Except.ok (some "hej")) emptyRedisGet okRedisSet
      (fun _ => "hallo") (fun _ => "B64")).2.1 "de" rfl).2.1⟩

/-! ### part_001: chunked synthesis emission (C4) -/

/-- Completion of the concurrent synthesis calls, modelled one task at a
time: each completed task `j` stores its result in the slot with its own
index, whatever the order in which the tasks finish (`Promise.all` keyed
by input index). -/
def fillSlots (synth : Nat → String) : List Nat → (Nat → Option String) → Nat → Option String
  | [], st => st
  | j :: rest, st => fillSlots synth rest (fun k => if k = j then some (synth j) else st k)

/-- The indexed emission loop of the part_001 streaming-TTS block: after all
results are buffered, `audio_chunk` frames are sent for indices
0, 1, ..., N-1 in that order. -/
def emitChunkFrames (n : Nat) (slots : Nat → Option String) : List Frame :=
  (List.range n).map (fun i => Frame.audioChunkF ((slots i).getD "") i n)

/-- Model of the part_001 streaming-TTS block: synthesize all text chunks
concurrently (results keyed by chunk index, completing in the order
`order`), then emit the buffered `audio_chunk` frames in index order,
then `audio_complete` with the total count, then `end`. -/
def streamingTTSRun (sessionId : Option String) (textChunks : List String)
    (synthB64 : String → String) (order : List Nat) : List Frame :=
  let n := textChunks.length
  let synth := fun i => dataUrl (synthB64 (textChunks.getD i ""))
  let slots := fillSlots synth order (fun _ => none)
  emitChunkFrames n slots ++ [Frame.audioCompleteF n, Frame.endF sessionId]

theorem fillSlots_not_mem (synth : Nat → String) {i : Nat} :
    ∀ (order : List Nat) (st : Nat → Option String), i ∉ order →
      fillSlots synth order st i = st i := by
  intro order
  induction order with
  | nil => intro st _; rfl
  | cons j rest ih =>
    intro st h
    rw [fillSlots, ih _ (fun hr => h (List.mem_cons_of_mem j hr))]
    exact if_neg (fun (hij : i = j) => h (hij ▸ List.mem_cons_self j rest))

theorem fillSlots_mem (synth : Nat → String) {i : Nat} :
    ∀ (order : List Nat) (st : Nat → Option String), i ∈ order →
      fillSlots synth order st i = some (synth i) := by
  intro order
  induction order with
  | nil => intro st h; exact absurd h (List.not_mem_nil i)
  | cons j rest ih =>
    intro st h
    by_cases hr : i ∈ rest
    · exact ih _ hr
    · have hij : i = j := by
        rcases List.mem_cons.mp h with h1 | h2
        · exact h1
        · exact absurd h2 hr
      rw [fillSlots, fillSlots_not_mem synth rest _ hr]
      subst hij
      simp

/-- Claim C4: in the chunked-synthesis path with N fragments, whenever the
completion order covers every task index, the emitted frames are exactly
the `audio_chunk` frames with chunkIndex 0, 1, ..., N-1 in that order —
independent of the completion order — followed by `audio_complete` with
totalChunks = N (and the closing `end`). -/
theorem c4_chunked_emission_in_index_order
    (sid : Option String) (textChunks : List String) (synthB64 : String → String)
    (order : List Nat)
    (hcover : ∀ i, i < textChunks.length → i ∈ order) :
    streamingTTSRun sid textChunks synthB64 order =
      ((List.range textChunks.length).map
        (fun i => Frame.audioChunkF (dataUrl (synthB64 (textChunks.getD i "")))
          i textChunks.length))
      ++ [Frame.audioCompleteF textChunks.length, Frame.endF sid] := by
  show emitChunkFrames textChunks.length _ ++ _ = _
  congr 1
  unfold emitChunkFrames
  apply List.map_congr_left
  intro i hi
  rw [fillSlots_mem _ order _ (hcover i (List.mem_range.mp hi))]
  rfl

/-- Witness for C4: three fragments whose synthesis completes in the order
2, 0, 1 are still emitted with chunkIndex 0, 1, 2. -/
theorem c4_chunked_emission_in_index_order_witness :
    streamingTTSRun (some "s1") ["aa", "bb", "cc"] (fun s => s) [2, 0, 1] =
      [Frame.audioChunkF (dataUrl "aa") 0 3, Frame.audioChunkF (dataUrl "bb") 1 3,
       Frame.audioChunkF (dataUrl "cc") 2 3, Frame.audioCompleteF 3,
       Frame.endF (some "s1")] :=
  (c4_chunked_emission_in_index_order (some "s1") ["aa", "bb", "cc"] (fun s => s)
    [2, 0, 1] (by decide)).trans (by decide)

/-! ### part_001: splitTextIntoChunks (C8) -/

/-- One iteration of the `splitTextIntoChunks` loop over the words, on the
state (chunks so far, current chunk):
if the current chunk can take the word and a separating space within the
bound, append it (with a space unless the chunk is empty); otherwise push
the current chunk (if nonempty) and restart from the word. -/
def chunkStep (maxChunkLength : Nat) (st : List (List Char) × List Char) (w : List Char) :
    List (List Char) × List Char :=
  if st.2.length + w.length + 1 ≤ maxChunkLength then
    (st.1, st.2 ++ (if st.2.isEmpty then [] else [' ']) ++ w)
  else
    ((if st.2.isEmpty then st.1 else st.1 ++ [st.2]), w)

/-- The final `if (currentChunk) chunks.push(currentChunk)`. -/
def chunkFinish (st : List (List Char) × List Char) : List (List Char) :=
  if st.2.isEmpty then st.1 else st.1 ++ [st.2]

/-- Function `splitTextIntoChunks(text, maxChunkLength)` from part_001: split the
text on spaces and greedily pack the words into bounded chunks. -/
def splitTextIntoChunks (text : String) (maxChunkLength : Nat) : List (List Char) :=
  chunkFinish ((splitSp text.toList).foldl (chunkStep maxChunkLength) ([], []))

/-- Join a list of chunks with single spaces. -/
def joinSp : List (List Char) → List Char
  | [] => []
  | [w] => w
  | w :: x :: rest => w ++ ' ' :: joinSp (x :: rest)

/-- The nonempty space-separated words of a character list. -/
def wordsNE (l : List Char) : List (List Char) :=
  (splitSp l).filter (fun w => !w.isEmpty)

/-! Splitting lemmas. -/

theorem splitP_append_sep (p : Char → Bool) {c : Char} (hc : p c = true) :
    ∀ (a b : List Char), splitP p (a ++ c :: b) = splitP p a ++ splitP p b := by
  intro a
  induction a with
  | nil =>
    intro b
    show splitP p (c :: b) = [[]] ++ splitP p b
    rw [splitP, if_pos hc]
    rfl
  | cons x a' ih =>
    intro b
    show splitP p (x :: (a' ++ c :: b)) = splitP p (x :: a') ++ splitP p b
    rw [splitP, splitP, ih b]
    by_cases hx : p x
    · rw [if_pos hx, if_pos hx]
      rfl
    · rw [if_neg hx, if_neg hx, consHead_append x (splitP p b) (splitP_ne_nil p a')]

theorem splitP_sepFree (p : Char → Bool) :
    ∀ (w : List Char), (∀ c ∈ w, p c = false) → splitP p w = [w] := by
  intro w
  induction w with
  | nil => intro _; rfl
  | cons x w' ih =>
    intro h
    rw [splitP, if_neg (by simp [h x (List.mem_cons_self x w')]),
      ih (fun c hc => h c (List.mem_cons_of_mem x hc))]
    rfl

theorem splitP_words_sepFree (p : Char → Bool) :
    ∀ (l : List Char), ∀ w ∈ splitP p l, ∀ c ∈ w, p c = false := by
  intro l
  induction l with
  | nil =>
    intro w hw c hc
    simp [splitP] at hw
    subst hw
    exact absurd hc (List.not_mem_nil c)
  | cons x l' ih =>
    intro w hw c hc
    rw [splitP] at hw
    by_cases hx : p x
    · rw [if_pos hx] at hw
      rcases List.mem_cons.mp hw with h1 | h2
      · subst h1; exact absurd hc (List.not_mem_nil c)
      · exact ih w h2 c hc
    · rw [if_neg hx] at hw
      match h : splitP p l' with
      | [] => exact absurd h (splitP_ne_nil p l')
      | v :: vs =>
        rw [h, consHead_cons] at hw
        rcases List.mem_cons.mp hw with h1 | h2
        · subst h1
          rcases List.mem_cons.mp hc with h3 | h4
          · subst h3; exact Bool.eq_false_iff.mpr hx
          · exact ih v (h ▸ List.mem_cons_self v vs) c h4
        · exact ih w (h ▸ List.mem_cons_of_mem v h2) c hc

theorem wordsNE_append_space (a b : List Char) :
    wordsNE (a ++ ' ' :: b) = wordsNE a ++ wordsNE b := by
  show (splitP _ (a ++ ' ' :: b)).filter _ = _
  rw [splitP_append_sep _ (by decide) a b, List.filter_append]
  rfl

theorem wordsNE_spaceFree {w : List Char} (h : ∀ c ∈ w, (c == ' ') = false) :
    wordsNE w = if w.isEmpty then [] else [w] := by
  show (splitP _ w).filter _ = _
  rw [splitP_sepFree _ w h]
  cases w with
  | nil => rfl
  | cons x w' =>
    simp [List.filter]

theorem wordsNE_nil : wordsNE [] = [] := rfl

/-- The accumulated nonempty words of a chunker state. -/
def stateWords (st : List (List Char) × List Char) : List (List Char) :=
  (st.1.map wordsNE).flatten ++ wordsNE st.2

theorem stateWords_chunkStep (maxChunkLength : Nat)
    (st : List (List Char) × List Char) (w : List Char) :
    stateWords (chunkStep maxChunkLength st w) = stateWords st ++ wordsNE w := by
  unfold chunkStep
  by_cases hg : st.2.length + w.length + 1 ≤ maxChunkLength
  · rw [if_pos hg]
    by_cases h2 : st.2 = []
    · rw [h2]
      unfold stateWords
      simp [wordsNE_nil, h2]
    · rw [if_neg (by simp [h2])]
      unfold stateWords
      rw [List.append_assoc, List.singleton_append, wordsNE_append_space,
        List.append_assoc]
  · rw [if_neg hg]
    by_cases h2 : st.2 = []
    · rw [h2]
      unfold stateWords
      simp [wordsNE_nil, h2]
    · rw [if_neg (by simp [h2])]
      unfold stateWords
      rw [List.map_append, List.flatten_append]
      simp [List.append_assoc]

theorem stateWords_foldl (maxChunkLength : Nat) :
    ∀ (ws : List (List Char)) (st : List (List Char) × List Char),
      stateWords (ws.foldl (chunkStep maxChunkLength) st)
        = stateWords st ++ (ws.map wordsNE).flatten := by
  intro ws
  induction ws with
  | nil => intro st; simp
  | cons w ws' ih =>
    intro st
    rw [List.foldl_cons, ih, stateWords_chunkStep]
    simp [List.append_assoc]

theorem stateWords_chunkFinish (st : List (List Char) × List Char) :
    ((chunkFinish st).map wordsNE).flatten = stateWords st := by
  unfold chunkFinish stateWords
  by_cases h2 : st.2 = []
  · rw [h2]
    simp [wordsNE_nil]
  · rw [if_neg (by simp [h2]), List.map_append, List.flatten_append]
    simp

theorem wordsNE_joinSp : ∀ (cs : List (List Char)),
    wordsNE (joinSp cs) = (cs.map wordsNE).flatten := by
  intro cs
  induction cs with
  | nil => simp [joinSp, wordsNE_nil]
  | cons w cs' ih =>
    cases cs' with
    | nil => simp [joinSp]
    | cons x rest =>
      show wordsNE (w ++ ' ' :: joinSp (x :: rest)) = _
      rw [wordsNE_append_space, ih]
      rfl

theorem flatten_wordsNE_of_sepFree :
    ∀ (ws : List (List Char)), (∀ w ∈ ws, ∀ c ∈ w, (c == ' ') = false) →
      (ws.map wordsNE).flatten = ws.filter (fun w => !w.isEmpty) := by
  intro ws
  induction ws with
  | nil => intro _; rfl
  | cons w ws' ih =>
    intro h
    rw [List.map_cons, List.flatten_cons,
      ih (fun v hv c hc => h v (List.mem_cons_of_mem w hv) c hc),
      wordsNE_spaceFree (h w (List.mem_cons_self w ws'))]
    cases hemp : w.isEmpty
    · simp [List.filter, hemp]
    · simp [List.filter, hemp]

theorem flatten_wordsNE_splitSp (l : List Char) :
    (((splitSp l).map wordsNE)).flatten = wordsNE l := by
  rw [flatten_wordsNE_of_sepFree (splitSp l) (splitP_words_sepFree _ l)]
  rfl

/-- Length-bound invariant for the chunker fold: every stored chunk is
within the bound or is one of the original words, and so is the current
chunk (or it is empty). -/
theorem chunkStep_bound (maxChunkLength : Nat) (W : List (List Char)) :
    ∀ (ws : List (List Char)) (st : List (List Char) × List Char),
      (∀ c ∈ st.1, c.length ≤ maxChunkLength ∨ c ∈ W) →
      (st.2 = [] ∨ st.2.length ≤ maxChunkLength ∨ st.2 ∈ W) →
      (∀ w ∈ ws, w ∈ W) →
      ∀ c ∈ chunkFinish (ws.foldl (chunkStep maxChunkLength) st),
        c.length ≤ maxChunkLength ∨ c ∈ W := by
  intro ws
  induction ws with
  | nil =>
    intro st h1 h2 _ c hc
    rw [List.foldl_nil] at hc
    unfold chunkFinish at hc
    by_cases h2e : st.2 = []
    · rw [h2e] at hc
      simp only [List.isEmpty_nil, if_true] at hc
      exact h1 c hc
    · rw [if_neg (by simp [h2e])] at hc
      rcases List.mem_append.mp hc with hm | hm
      · exact h1 c hm
      · have heq : c = st.2 := by simpa using hm
        subst heq
        rcases h2 with h2 | h2
        · exact absurd h2 h2e
        · exact h2
  | cons w ws' ih =>
    intro st h1 h2 hw c hc
    rw [List.foldl_cons] at hc
    refine ih (chunkStep maxChunkLength st w) ?_ ?_
      (fun v hv => hw v (List.mem_cons_of_mem w hv)) c hc
    · intro d hd
      unfold chunkStep at hd
      by_cases hg : st.2.length + w.length + 1 ≤ maxChunkLength
      · rw [if_pos hg] at hd
        exact h1 d hd
      · rw [if_neg hg] at hd
        by_cases h2e : st.2 = []
        · rw [h2e] at hd
          simp only [List.isEmpty_nil, if_true] at hd
          exact h1 d hd
        · rw [if_neg (by simp [h2e])] at hd
          rcases List.mem_append.mp hd with hm | hm
          · exact h1 d hm
          · have heq : d = st.2 := by simpa using hm
            subst heq
            rcases h2 with h2 | h2
            · exact absurd h2 h2e
            · exact h2
    · unfold chunkStep
      by_cases hg : st.2.length + w.length + 1 ≤ maxChunkLength
      · rw [if_pos hg]
        right; left
        show (st.2 ++ (if st.2.isEmpty then [] else [' ']) ++ w).length ≤ maxChunkLength
        by_cases h2e : st.2 = []
        · rw [h2e] at hg ⊢
          simp only [List.isEmpty_nil, if_true, List.nil_append, List.length_nil] at hg ⊢
          omega
        · rw [if_neg (by simp [h2e])]
          simp only [List.length_append, List.length_cons, List.length_nil]
          omega
      · rw [if_neg hg]
        right; right
        exact hw w (List.mem_cons_self w ws')

/-! ### Claim C8: chunker round-trip, bound and non-emptiness -/

/-- Claim C8, counterexample: the chunker does not always return a
non-empty sequence — on the empty input text it returns the empty list of
fragments. -/
theorem c8_chunker_counterexample : splitTextIntoChunks "" 30 = [] := by decide

/-- Claim C8, amended: joining the chunker fragments with single spaces
yields a text with exactly the input sequence of nonempty
space-separated words (the round-trip is exact up to spacing); every
fragment is within `maxChunkLength` unless it is a single input word
(words are never split mid-word); and the fragment list is non-empty
whenever the input contains at least one non-space character — an empty
or all-space input yields an empty fragment list. -/
theorem c8_chunker_properties (text : String) (maxChunkLength : Nat) :
    wordsNE (joinSp (splitTextIntoChunks text maxChunkLength)) = wordsNE text.toList ∧
    (∀ c ∈ splitTextIntoChunks text maxChunkLength,
        c.length ≤ maxChunkLength ∨ c ∈ splitSp text.toList) ∧
    (wordsNE text.toList ≠ [] → splitTextIntoChunks text maxChunkLength ≠ []) := by
  have hflat : ((splitTextIntoChunks text maxChunkLength).map wordsNE).flatten
      = wordsNE text.toList := by
    unfold splitTextIntoChunks
    rw [stateWords_chunkFinish, stateWords_foldl]
    show stateWords ([], []) ++ _ = _
    rw [flatten_wordsNE_splitSp]
    rfl
  refine ⟨?_, ?_, ?_⟩
  · rw [wordsNE_joinSp, hflat]
  · exact chunkStep_bound maxChunkLength (splitSp text.toList) (splitSp text.toList)
      ([], []) (fun c hc => absurd hc (List.not_mem_nil c)) (Or.inl rfl)
      (fun w hw => hw)
  · intro hne hempty
    rw [hempty] at hflat
    exact hne (hflat.symm.trans rfl)

/-- Witness for C8 at a concrete text and bound. -/
theorem c8_chunker_properties_witness :
    splitTextIntoChunks "hello world again" 10 ≠ [] ∧
    wordsNE (joinSp (splitTextIntoChunks "hello world again" 10))
      = wordsNE "hello world again".toList :=
  ⟨(c8_chunker_properties "hello world again" 10).2.2 (by decide),
   (c8_chunker_properties "hello world again" 10).1⟩

end VerloWS
